import Mathlib

/-! # Verification of the protocol-opcua-c client adapter core

Shallow embedding of the core behaviours of the OPC UA client adapter:
the browse engine's valueAlias construction and browse-path strings
(src/command/browse/browse_common.c), the browse batch status handling,
the read executor's error handling (src/command/read.c), the subscription
engine's create and delete operations (src/command/subscription.c), the
IPv4 validator used by discovery
(src/session/discovery/edge_discovery_common.c), and the session registry
(src/session/edge_opcua_client.c).

C strings are modelled as `List Char`; machine integers as `Nat` with
explicit wrap-around where the C arithmetic can overflow; allocation is
assumed to succeed except where a claim is about a failure path. -/

namespace OpcUa

/-- Contents of a C string (`char *` / `unsigned char *`) up to the NUL. -/
abbrev CStr := List Char

/-- `UA_NodeIdType`: the identifier type of a `UA_NodeId`. -/
inductive NodeIdType
  | numeric
  | stringId
  | byteString
  | guid
  deriving DecidableEq

/-- `UA_NodeId`: namespace index (a `UA_UInt16`), identifier type and
identifier value.  Only the fields read by the browse engine are modelled. -/
structure UANodeId where
  namespaceIndex : Nat
  identifierType : NodeIdType
  stringIdentifier : CStr
  numericIdentifier : Nat

/-- Modelled from the spec: `getCharacterNodeIdType` (declared in the
open62541 helper unit, not under src/) maps an identifier type to its
single-character tag `i` (Integer), `s` (String), `b` (ByteString),
`g` (Guid). -/
def getCharacterNodeIdType : NodeIdType → Char
  | NodeIdType.numeric => 'i'
  | NodeIdType.stringId => 's'
  | NodeIdType.byteString => 'b'
  | NodeIdType.guid => 'g'

/-- The decimal numeral of `n`, as `snprintf`'s `%d` prints a non-negative
value (the namespace index is a `UA_UInt16`, promoted to a non-negative
`int`). -/
def natChars (n : Nat) : CStr := (Nat.repr n).data

/-- `snprintf(buf, n, ...)` stores at most `n - 1` characters of the
formatted string into `buf` and NUL-terminates it. -/
def snprintfTrunc (n : Nat) (s : CStr) : CStr := s.take (n - 1)

/-- `convertUAStringToUnsignedChar` (browse_common.c:95): NULL for an empty
`UA_String`, otherwise a copy of the bytes. -/
def convertUAStringToUnsignedChar (s : CStr) : Option CStr :=
  if s.length ≤ 0 then none else some s

/-- The `nodeInfo` buffer of `getValueAlias` (browse_common.c:777-808): a
20-byte buffer that `snprintf` fills with `{<ns>;<T>}` for non-string
identifiers, with `{<ns>;<T>;<display-text>}` for a string identifier whose
display-text begins with `v=`, and with `{<ns>;<T>;v=0}` for a string
identifier otherwise; it stays empty when the display-text of a
string-identifier node is empty. -/
def valueAliasBraces (nodeId : UANodeId) (displayText : CStr) : CStr :=
  let bufferSize := 20
  let curType := getCharacterNodeIdType nodeId.identifierType
  if nodeId.identifierType = NodeIdType.stringId then
    match convertUAStringToUnsignedChar displayText with
    | some valueType =>
      if valueType.take 2 = ['v', '='] then
        snprintfTrunc bufferSize
          (['{'] ++ natChars nodeId.namespaceIndex ++ [';', curType, ';']
            ++ valueType ++ ['}'])
      else
        snprintfTrunc bufferSize
          (['{'] ++ natChars nodeId.namespaceIndex
            ++ [';', curType, ';', 'v', '=', '0', '}'])
    | none => []
  else
    snprintfTrunc bufferSize
      (['{'] ++ natChars nodeId.namespaceIndex ++ [';', curType, '}'])

/-- `getValueAlias` (browse_common.c:775-830): concatenates the `nodeInfo`
brace buffer and the browse name.  When the brace buffer is empty nothing is
copied into the result (the calloc-ed output stays all NUL). -/
def getValueAlias (browseName : Option CStr) (nodeId : UANodeId)
    (displayText : CStr) : CStr :=
  let nodeInfo := valueAliasBraces nodeId displayText
  if nodeInfo.length > 0 then
    nodeInfo ++ (match browseName with | some nm => nm | none => [])
  else []

/-- `getCurrentBrowsePath` (browse_common.c:704-750): walks the browse-path
stack from the head, appending `/<browseName>` for every entry whose browse
name is non-NULL; returns NULL when the stack is empty or no entry
contributed a segment. -/
def getCurrentBrowsePath (stack : List (Option CStr)) : Option CStr :=
  if stack.isEmpty then none
  else
    let path := stack.foldl (fun acc e =>
      match e with
      | none => acc
      | some nm => acc ++ ('/' :: nm)) []
    if path.isEmpty then none else some path

/-- `getCompleteBrowsePath` (browse_common.c:832-866): current browse path
(empty when NULL), then `/`, then the valueAlias (empty when NULL). -/
def getCompleteBrowsePath (valueAlias : Option CStr)
    (stack : List (Option CStr)) : CStr :=
  (match getCurrentBrowsePath stack with
   | some p => p
   | none => []) ++ ('/' :: (match valueAlias with | some v => v | none => []))

/-- `convertNodeIdToString` (browse_common.c:868-886): the string identifier
for string-typed NodeIds; NULL for every other identifier type (the numeric
branch is commented out in the source). -/
def convertNodeIdToString (nodeId : Option UANodeId) : Option CStr :=
  match nodeId with
  | none => none
  | some nid =>
    if nid.identifierType = NodeIdType.stringId then
      convertUAStringToUnsignedChar nid.stringIdentifier
    else none

theorem natChars_length_le (ns : Nat) (h : ns < 65536) :
    (natChars ns).length ≤ 5 := by
  have h5 : ns < 10 ^ 5 := lt_of_lt_of_le h (by norm_num)
  have h := Nat.repr_length ns 5 (by norm_num) h5
  exact h

theorem snprintfTrunc_of_le (s : CStr) (h : s.length ≤ 19) :
    snprintfTrunc 20 s = s := by
  simp only [snprintfTrunc]
  exact List.take_of_length_le h

theorem getValueAlias_of_braces (browseName : CStr) (nodeId : UANodeId)
    (text b : CStr) (hb : valueAliasBraces nodeId text = b)
    (hpos : 0 < b.length) :
    getValueAlias (some browseName) nodeId text = b ++ browseName := by
  simp only [getValueAlias, hb]
  rw [if_pos hpos]

/-- C1: the claim is false on the code.  For a string-identifier NodeId whose
display-text does not begin with `v=`, `getValueAlias` emits
`{<ns>;s;v=0}<browseName>`, not `{<ns>;s}<browseName>`, so a `;v=N`
component appears inside the braces although the display-text does not begin
with `v=`. -/
theorem getValueAlias_claim_counterexample :
    getValueAlias (some ("Foo").data) ⟨2, NodeIdType.stringId, [], 0⟩ ("bar").data
      = ("\x7b2;s;v=0\x7dFoo").data ∧
    getValueAlias (some ("Foo").data) ⟨2, NodeIdType.stringId, [], 0⟩ ("bar").data
      ≠ ("\x7b2;s\x7dFoo").data := by
  constructor
  · rfl
  · decide

/-- C1 (amended): for a non-string identifier the valueAlias is
`{<ns>;<T>}<browseName>`; for a string identifier with a non-empty
display-text that does not begin with `v=` it is `{<ns>;s;v=0}<browseName>`;
when the display-text begins with `v=` the display-text is copied verbatim
into the braces, subject to truncation of the brace part to 19 characters. -/
theorem getValueAlias_encoding (ns : Nat) (hns : ns < 65536)
    (name text : CStr) :
    (∀ idt, idt ≠ NodeIdType.stringId →
        getValueAlias (some name) ⟨ns, idt, [], 0⟩ text
          = ['{'] ++ natChars ns ++ [';', getCharacterNodeIdType idt, '}'] ++ name)
  ∧ (text ≠ [] → text.take 2 ≠ ['v', '='] →
        getValueAlias (some name) ⟨ns, NodeIdType.stringId, [], 0⟩ text
          = ['{'] ++ natChars ns ++ [';', 's', ';', 'v', '=', '0', '}'] ++ name)
  ∧ (text.take 2 = ['v', '='] →
        getValueAlias (some name) ⟨ns, NodeIdType.stringId, [], 0⟩ text
          = (['{'] ++ natChars ns ++ [';', 's', ';'] ++ text ++ ['}']).take 19
            ++ name) := by
  have hlen := natChars_length_le ns hns
  refine ⟨?_, ?_, ?_⟩
  · intro idt hidt
    have hb : valueAliasBraces ⟨ns, idt, [], 0⟩ text
        = ['{'] ++ natChars ns ++ [';', getCharacterNodeIdType idt, '}'] := by
      simp only [valueAliasBraces, hidt, if_false]
      exact snprintfTrunc_of_le _ (by simp; omega)
    exact getValueAlias_of_braces name _ text _ hb (by simp)
  · intro hne hnv
    have htne : text.length ≤ 0 ↔ False := by
      simp [List.length_eq_zero, hne]
    have hb : valueAliasBraces ⟨ns, NodeIdType.stringId, [], 0⟩ text
        = ['{'] ++ natChars ns ++ [';', 's', ';', 'v', '=', '0', '}'] := by
      simp only [valueAliasBraces, if_pos, convertUAStringToUnsignedChar, htne,
        iff_false, getCharacterNodeIdType]
      simp only [hne, if_false, reduceIte, hnv]
      exact snprintfTrunc_of_le _ (by simp; omega)
    exact getValueAlias_of_braces name _ text _ hb (by simp)
  · intro hv
    have hne : text ≠ [] := by
      intro hx; rw [hx] at hv; exact absurd hv (by decide)
    have htne : ¬ text.length ≤ 0 := by
      simp [List.length_eq_zero, hne]
    have hb : valueAliasBraces ⟨ns, NodeIdType.stringId, [], 0⟩ text
        = (['{'] ++ natChars ns ++ [';', 's', ';'] ++ text ++ ['}']).take 19 := by
      simp only [valueAliasBraces, convertUAStringToUnsignedChar, htne,
        if_false, reduceIte, getCharacterNodeIdType, hv, snprintfTrunc]
    exact getValueAlias_of_braces name _ text _ hb (by simp [List.length_take])

theorem getValueAlias_encoding_witness :
    getValueAlias (some ("Foo").data) ⟨2, NodeIdType.stringId, [], 0⟩ ("bar").data
      = ['{'] ++ natChars 2 ++ [';', 's', ';', 'v', '=', '0', '}'] ++ ("Foo").data :=
  (getValueAlias_encoding 2 (by decide) ("Foo").data ("bar").data).2.1
    (by decide) (by decide)

/-- C9: the brace part of every valueAlias is written by `snprintf` into a
fixed 20-byte buffer and is therefore at most 19 characters long; a
string-identifier node whose namespace index and `v=` display-text need 20
or more characters gets a silently truncated prefix instead of an error. -/
theorem getValueAlias_braces_bounded :
    (∀ (nodeId : UANodeId) (text : CStr),
        (valueAliasBraces nodeId text).length ≤ 19)
  ∧ getValueAlias (some ("N").data) ⟨10, NodeIdType.stringId, [], 0⟩
        ("v=123456789012345678").data
      = ("\x7b10;s;v=12345678901N").data := by
  constructor
  · intro nid text
    by_cases h : nid.identifierType = NodeIdType.stringId
    · simp only [valueAliasBraces, h, if_pos]
      cases hc : convertUAStringToUnsignedChar text with
      | none => simp
      | some vt =>
        by_cases hv : vt.take 2 = ['v', '=']
        · simp [hv, snprintfTrunc, List.length_take]
        · simp [hv, snprintfTrunc, List.length_take]
    · simp [valueAliasBraces, h, snprintfTrunc, List.length_take]
  · rfl

theorem browse_foldl_skip (stack : List (Option CStr)) (acc : CStr)
    (h : ∀ e ∈ stack, e = none) :
    stack.foldl (fun acc e =>
      match e with
      | none => acc
      | some nm => acc ++ ('/' :: nm)) acc = acc := by
  induction stack generalizing acc with
  | nil => rfl
  | cons hd tl ih =>
    have hhd : hd = none := h hd (by simp)
    subst hhd
    exact ih acc (fun e he => h e (by simp [he]))

/-- C10: a NULL browse name contributes no path segment; non-string starting
NodeIds get a NULL browse name from `convertNodeIdToString`; with no named
entry on the stack `getCurrentBrowsePath` is NULL and the complete browse
path of a first-level reference is `/` followed by its valueAlias. -/
theorem browse_path_null_names :
    (∀ (pre post : List (Option CStr)),
        getCurrentBrowsePath (pre ++ none :: post)
          = getCurrentBrowsePath (pre ++ post))
  ∧ (∀ (nid : UANodeId), nid.identifierType ≠ NodeIdType.stringId →
        convertNodeIdToString (some nid) = none)
  ∧ (∀ (stack : List (Option CStr)), (∀ e ∈ stack, e = none) →
        getCurrentBrowsePath stack = none)
  ∧ (∀ (stack : List (Option CStr)) (vAlias : CStr), (∀ e ∈ stack, e = none) →
        getCompleteBrowsePath (some vAlias) stack = '/' :: vAlias) := by
  have hnil : ∀ (stack : List (Option CStr)), (∀ e ∈ stack, e = none) →
      getCurrentBrowsePath stack = none := by
    intro stack h
    cases stack with
    | nil => rfl
    | cons hd tl =>
      simp only [getCurrentBrowsePath, List.isEmpty_cons, if_false, Bool.false_eq_true]
      rw [browse_foldl_skip _ _ h]
      rfl
  refine ⟨?_, ?_, hnil, ?_⟩
  · intro pre post
    by_cases hpp : pre ++ post = []
    · obtain ⟨hpre, hpost⟩ := List.append_eq_nil.mp hpp
      subst hpre; subst hpost
      rfl
    · have h1 : (pre ++ none :: post).isEmpty = false := by
        simp [List.isEmpty_iff]
      have h2 : (pre ++ post).isEmpty = false := by
        simp [List.isEmpty_iff, hpp]
      simp only [getCurrentBrowsePath, h1, h2, Bool.false_eq_true, if_false]
      rw [List.foldl_append, List.foldl_append, List.foldl_cons]
  · intro nid hnid
    simp [convertNodeIdToString, hnid]
  · intro stack vAlias h
    simp [getCompleteBrowsePath, hnil stack h]

theorem browse_path_null_names_witness :
    getCompleteBrowsePath (some ("X").data) [none, none] = '/' :: ("X").data :=
  browse_path_null_names.2.2.2 [none, none] ("X").data (by decide)

/-! ### OPC UA status codes (values fixed by the OPC UA standard) -/

def UA_STATUSCODE_GOOD : Nat := 0

def UA_STATUSCODE_BADNODEIDUNKNOWN : Nat := 0x80340000

def UA_STATUSCODE_BADREQUESTCANCELLEDBYCLIENT : Nat := 0x802C0000

def UA_STATUSCODE_BADSUBSCRIPTIONIDINVALID : Nat := 0x80280000

def UA_STATUSCODE_BADNOSUBSCRIPTION : Nat := 0x80790000

def UA_STATUSCODE_BADMONITOREDITEMIDINVALID : Nat := 0x80420000

/-- `checkStatusGood` (browse_common.c:216). -/
def checkStatusGood (status : Nat) : Bool := status == UA_STATUSCODE_GOOD

/-! ### Browse batch status handling (browse_common.c:1022-1057)

The `browse` routine walks the per-node results; for every result with a
bad status it increments `nodeIdUnknownCount` when the status is
`BADNODEIDUNKNOWN` and then emits either the aggregated
`STATUS_VIEW_NODEID_UNKNOWN_ALL_RESULTS` error (when the running counter
equals the number of results) or a `STATUS_VIEW_RESULT_STATUS_CODE_BAD`
error carrying the underlying status, and skips the result.  Results with a
good status emit neither of these two errors; their reference processing is
not modelled here because it produces no error of either kind. -/

/-- The two error emissions of the bad-status branch, tagged with the result
index that produced them. -/
inductive BrowseErr
  | aggUnknown (idx : Nat)
  | resultBad (idx : Nat) (status : Nat)

/-- The per-result loop of `browse` projected to its bad-status error
emissions: arguments are the remaining statuses, the current result index,
the running `nodeIdUnknownCount` and the total result count. -/
def browseErrLoop : List Nat → Nat → Nat → Nat → List BrowseErr
  | [], _, _, _ => []
  | status :: rest, i, cnt, n =>
    if checkStatusGood status then browseErrLoop rest (i + 1) cnt n
    else
      let cnt' := if status = UA_STATUSCODE_BADNODEIDUNKNOWN then cnt + 1 else cnt
      (if cnt' = n then BrowseErr.aggUnknown i else BrowseErr.resultBad i status)
        :: browseErrLoop rest (i + 1) cnt' n

/-- The bad-status error emissions of one batch of browse results. -/
def browseStatusErrors (statuses : List Nat) : List BrowseErr :=
  browseErrLoop statuses 0 0 statuses.length

theorem countP_lt_length_of_exists_not {p : Nat → Bool} :
    ∀ (l : List Nat), (∃ a ∈ l, ¬ p a) → l.countP p < l.length := by
  intro l
  induction l with
  | nil => rintro ⟨a, ha, -⟩; exact absurd ha (List.not_mem_nil a)
  | cons hd tl ih =>
    rintro ⟨a, ha, hpa⟩
    rcases List.mem_cons.mp ha with h | h
    · have hph : p hd = false := by
        rw [← h]
        simpa using hpa
      have hcons : (hd :: tl).countP p = tl.countP p := by
        simp [List.countP_cons, hph]
      have hle := List.countP_le_length (l := tl) p
      rw [hcons, List.length_cons]
      exact Nat.lt_succ_of_le hle
    · have h2 := ih ⟨a, h, hpa⟩
      have hcons : (hd :: tl).countP p ≤ tl.countP p + 1 := by
        simp only [List.countP_cons]
        split
        · exact Nat.le_refl _
        · exact Nat.add_le_add_left (Nat.zero_le 1) _
      rw [List.length_cons]
      exact Nat.lt_of_le_of_lt hcons (Nat.succ_lt_succ h2)

theorem browseErrLoop_cons_good (s : Nat) (rest : List Nat) (i cnt n : Nat)
    (hg : checkStatusGood s = true) :
    browseErrLoop (s :: rest) i cnt n = browseErrLoop rest (i + 1) cnt n := by
  simp [browseErrLoop, hg]

theorem browseErrLoop_cons_bad (s : Nat) (rest : List Nat) (i cnt n : Nat)
    (hg : checkStatusGood s = false)
    (hne : (if s = UA_STATUSCODE_BADNODEIDUNKNOWN then cnt + 1 else cnt) ≠ n) :
    browseErrLoop (s :: rest) i cnt n
      = BrowseErr.resultBad i s
          :: browseErrLoop rest (i + 1)
              (if s = UA_STATUSCODE_BADNODEIDUNKNOWN then cnt + 1 else cnt) n := by
  simp [browseErrLoop, hg, hne]

theorem browseErrLoop_cons_unknown_agg (rest : List Nat) (i cnt n : Nat)
    (heq : cnt + 1 = n) :
    browseErrLoop (UA_STATUSCODE_BADNODEIDUNKNOWN :: rest) i cnt n
      = BrowseErr.aggUnknown i :: browseErrLoop rest (i + 1) (cnt + 1) n := by
  have hg : checkStatusGood UA_STATUSCODE_BADNODEIDUNKNOWN = false := by decide
  simp [browseErrLoop, hg, heq]

theorem browseErrLoop_cons_unknown_noagg (rest : List Nat) (i cnt n : Nat)
    (hne : cnt + 1 ≠ n) :
    browseErrLoop (UA_STATUSCODE_BADNODEIDUNKNOWN :: rest) i cnt n
      = BrowseErr.resultBad i UA_STATUSCODE_BADNODEIDUNKNOWN
          :: browseErrLoop rest (i + 1) (cnt + 1) n := by
  have hg : checkStatusGood UA_STATUSCODE_BADNODEIDUNKNOWN = false := by decide
  simp [browseErrLoop, hg, hne]

theorem browseErrLoop_no_agg (n : Nat) :
    ∀ (sts : List Nat) (i cnt : Nat),
      cnt + sts.countP (fun s => s == UA_STATUSCODE_BADNODEIDUNKNOWN) < n →
      browseErrLoop sts i cnt n
        = ((List.enumFrom i sts).filter (fun p => !checkStatusGood p.2)).map
            (fun p => BrowseErr.resultBad p.1 p.2) := by
  intro sts
  induction sts with
  | nil => intro i cnt h; rfl
  | cons s rest ih =>
    intro i cnt h
    rw [List.countP_cons, ← Nat.add_assoc] at h
    rw [List.enumFrom_cons]
    by_cases hg : checkStatusGood s = true
    · have hif : (if (s == UA_STATUSCODE_BADNODEIDUNKNOWN) = true then 1 else 0) = 0 := by
        have hs0 : s = 0 := by simpa [checkStatusGood, UA_STATUSCODE_GOOD] using hg
        subst hs0
        decide
      rw [hif, Nat.add_zero] at h
      rw [browseErrLoop_cons_good s rest i cnt n hg,
        List.filter_cons_of_neg (by simp [hg])]
      exact ih (i + 1) cnt h
    · have hgf : checkStatusGood s = false := by simpa using hg
      have hsplit : (if s = UA_STATUSCODE_BADNODEIDUNKNOWN then cnt + 1 else cnt)
          = cnt + (if (s == UA_STATUSCODE_BADNODEIDUNKNOWN) = true then 1 else 0) := by
        by_cases hu : s = UA_STATUSCODE_BADNODEIDUNKNOWN <;> simp [hu]
      have hle : cnt + (if (s == UA_STATUSCODE_BADNODEIDUNKNOWN) = true then 1 else 0)
          ≤ cnt + rest.countP (fun x => x == UA_STATUSCODE_BADNODEIDUNKNOWN)
            + (if (s == UA_STATUSCODE_BADNODEIDUNKNOWN) = true then 1 else 0) :=
        Nat.add_le_add_right (Nat.le_add_right cnt _) _
      have hne : (if s = UA_STATUSCODE_BADNODEIDUNKNOWN then cnt + 1 else cnt) ≠ n := by
        rw [hsplit]
        exact Nat.ne_of_lt (Nat.lt_of_le_of_lt hle h)
      rw [browseErrLoop_cons_bad s rest i cnt n hgf hne,
        List.filter_cons_of_pos (by simp [hgf]), List.map_cons]
      have hrec := ih (i + 1)
        (if s = UA_STATUSCODE_BADNODEIDUNKNOWN then cnt + 1 else cnt)
        (by rw [hsplit, Nat.add_right_comm]; exact h)
      rw [hrec]

theorem browseErrLoop_all_unknown (n : Nat) :
    ∀ (sts : List Nat) (i cnt : Nat), sts ≠ [] →
      (∀ s ∈ sts, s = UA_STATUSCODE_BADNODEIDUNKNOWN) →
      cnt + sts.length = n →
      browseErrLoop sts i cnt n
        = (List.range' i (sts.length - 1)).map
            (fun j => BrowseErr.resultBad j UA_STATUSCODE_BADNODEIDUNKNOWN)
          ++ [BrowseErr.aggUnknown (i + sts.length - 1)] := by
  intro sts
  induction sts with
  | nil => intro i cnt h; exact absurd rfl h
  | cons s rest ih =>
    intro i cnt _ hall hn
    have hs : s = UA_STATUSCODE_BADNODEIDUNKNOWN := hall s (List.mem_cons_self s rest)
    subst hs
    cases rest with
    | nil =>
      rw [browseErrLoop_cons_unknown_agg [] i cnt n hn]
      rfl
    | cons r rs =>
      rw [List.length_cons, List.length_cons] at hn
      subst hn
      have hne : cnt + 1 ≠ cnt + (rs.length + 1 + 1) := fun hc =>
        Nat.succ_ne_zero rs.length
          ((Nat.succ_injective (Nat.add_left_cancel hc)).symm)
      have ihr := ih (i + 1) (cnt + 1)
        (List.cons_ne_nil r rs)
        (fun x hx => hall x (List.mem_cons_of_mem _ hx))
        (by rw [List.length_cons, Nat.add_assoc, Nat.add_comm 1 (rs.length + 1)])
      rw [browseErrLoop_cons_unknown_noagg (r :: rs) i cnt _ hne, ihr]
      simp only [List.length_cons]
      have hidx : i + 1 + (rs.length + 1) - 1 = i + (rs.length + 1 + 1) - 1 := by
        rw [Nat.add_assoc, Nat.add_comm 1 (rs.length + 1)]
      rw [hidx]
      have hr1 : rs.length + 1 + 1 - 1 = rs.length + 1 :=
        Nat.add_sub_cancel (rs.length + 1) 1
      have hr2 : rs.length + 1 - 1 = rs.length := Nat.add_sub_cancel rs.length 1
      rw [hr1, hr2, List.range'_succ, List.map_cons, List.cons_append]

/-- C3: the claim is false on the code.  In a batch of two results that are
both `BADNODEIDUNKNOWN`, the first result emits a
`STATUS_VIEW_RESULT_STATUS_CODE_BAD` error (the running counter has not yet
reached the result count); only the last result emits the aggregated
error. -/
theorem browse_all_unknown_counterexample :
    browseStatusErrors [UA_STATUSCODE_BADNODEIDUNKNOWN, UA_STATUSCODE_BADNODEIDUNKNOWN]
      = [BrowseErr.resultBad 0 UA_STATUSCODE_BADNODEIDUNKNOWN, BrowseErr.aggUnknown 1]
  ∧ BrowseErr.resultBad 0 UA_STATUSCODE_BADNODEIDUNKNOWN
      ∈ browseStatusErrors
          [UA_STATUSCODE_BADNODEIDUNKNOWN, UA_STATUSCODE_BADNODEIDUNKNOWN] := by
  constructor
  · rfl
  · have h : browseStatusErrors
        [UA_STATUSCODE_BADNODEIDUNKNOWN, UA_STATUSCODE_BADNODEIDUNKNOWN]
        = [BrowseErr.resultBad 0 UA_STATUSCODE_BADNODEIDUNKNOWN,
           BrowseErr.aggUnknown 1] := rfl
    rw [h]
    exact List.mem_cons_self _ _

/-- C3 (amended): in a batch whose results are all `BADNODEIDUNKNOWN`,
exactly one aggregated `STATUS_VIEW_NODEID_UNKNOWN_ALL_RESULTS` error is
emitted, at the final result, while every earlier result emits one
`STATUS_VIEW_RESULT_STATUS_CODE_BAD` error; in a batch that is not entirely
`BADNODEIDUNKNOWN`, every bad result emits exactly one
`STATUS_VIEW_RESULT_STATUS_CODE_BAD` error carrying its status, and no
aggregated error is emitted. -/
theorem browse_bad_status_errors (statuses : List Nat) :
    (statuses ≠ [] → (∀ s ∈ statuses, s = UA_STATUSCODE_BADNODEIDUNKNOWN) →
        browseStatusErrors statuses
          = (List.range' 0 (statuses.length - 1)).map
              (fun j => BrowseErr.resultBad j UA_STATUSCODE_BADNODEIDUNKNOWN)
            ++ [BrowseErr.aggUnknown (statuses.length - 1)])
  ∧ ((∃ s ∈ statuses, s ≠ UA_STATUSCODE_BADNODEIDUNKNOWN) →
        browseStatusErrors statuses
          = (statuses.enum.filter (fun p => !checkStatusGood p.2)).map
              (fun p => BrowseErr.resultBad p.1 p.2)) := by
  constructor
  · intro hne hall
    have := browseErrLoop_all_unknown statuses.length statuses 0 0 hne hall (by simp)
    simpa [browseStatusErrors] using this
  · rintro ⟨a, ha, hne⟩
    have hcnt : statuses.countP (fun s => s == UA_STATUSCODE_BADNODEIDUNKNOWN)
        < statuses.length := by
      apply countP_lt_length_of_exists_not
      exact ⟨a, ha, by simpa using hne⟩
    have := browseErrLoop_no_agg statuses.length statuses 0 0
      (by rw [Nat.zero_add]; exact hcnt)
    simpa [browseStatusErrors, List.enum] using this

theorem browse_bad_status_errors_witness :
    browseStatusErrors
        [UA_STATUSCODE_BADNODEIDUNKNOWN, UA_STATUSCODE_BADNODEIDUNKNOWN,
         UA_STATUSCODE_BADNODEIDUNKNOWN]
      = (List.range' 0 2).map
          (fun j => BrowseErr.resultBad j UA_STATUSCODE_BADNODEIDUNKNOWN)
        ++ [BrowseErr.aggUnknown 2] :=
  (browse_bad_status_errors _).1 (by decide) (by decide)

/-! ### Read executor error handling (read.c:258-769)

`readGroup` issues one read service call for the whole batch and then walks
the per-node results.  A good result is decoded into one `EdgeResponse` of
the pending `GENERAL_RESPONSE` message; a bad result either aborts the whole
message (batch size 1) or emits a non-fatal error response carrying the
node's position.  After the loop, a batch of more than one node with zero
good responses aborts; otherwise the `GENERAL_RESPONSE` is enqueued.  The
value decoding of good results is assumed to succeed (its allocation-failure
paths are not part of the claim). -/

/-- The distinct error descriptions written into `errorDesc` by the
status-handling branches of `readGroup` (read.c:730-744). -/
inductive ReadErrDesc
  | badResultSingle
  | badResultAt (pos : Nat)
  | noValidResponses

/-- Observable emissions of `readGroup`: `sendErrorResponse` calls and the
final `add_to_recvQ` of the `GENERAL_RESPONSE` message, which carries one
response per good result (identified here by its index). -/
inductive ReadEmit
  | errorResponse (d : ReadErrDesc)
  | generalResponse (goodIdxs : List Nat)

/-- The per-result loop of `readGroup` (read.c:415-739): returns the error
emissions, the indices of the good results collected into the response
message, and whether the loop aborted to `EXIT`. -/
def readLoop (reqLen : Nat) : List Nat → Nat → List ReadEmit × List Nat × Bool
  | [], _ => ([], [], false)
  | s :: rest, i =>
    if s = UA_STATUSCODE_GOOD then
      let r := readLoop reqLen rest (i + 1)
      (r.1, i :: r.2.1, r.2.2)
    else if reqLen = 1 then
      ([ReadEmit.errorResponse ReadErrDesc.badResultSingle], [], true)
    else
      let r := readLoop reqLen rest (i + 1)
      (ReadEmit.errorResponse (ReadErrDesc.badResultAt i) :: r.1, r.2.1, r.2.2)

/-- `readGroup` (read.c:258-769) projected to its emissions, as a function of
the per-node result statuses. -/
def readGroupEmits (statuses : List Nat) : List ReadEmit :=
  let r := readLoop statuses.length statuses 0
  if r.2.2 then r.1
  else if 1 < statuses.length ∧ r.2.1.length < 1 then
    r.1 ++ [ReadEmit.errorResponse ReadErrDesc.noValidResponses]
  else r.1 ++ [ReadEmit.generalResponse r.2.1]

theorem readLoop_spec (reqLen : Nat) (h : reqLen ≠ 1) :
    ∀ (sts : List Nat) (i : Nat),
      readLoop reqLen sts i =
        (((List.enumFrom i sts).filter (fun p => !(p.2 == UA_STATUSCODE_GOOD))).map
            (fun p => ReadEmit.errorResponse (ReadErrDesc.badResultAt p.1)),
         ((List.enumFrom i sts).filter (fun p => p.2 == UA_STATUSCODE_GOOD)).map
            Prod.fst,
         false) := by
  intro sts
  induction sts with
  | nil => intro i; rfl
  | cons s rest ih =>
    intro i
    rw [List.enumFrom_cons]
    by_cases hs : s = UA_STATUSCODE_GOOD
    · have hb : (s == UA_STATUSCODE_GOOD) = true := by simp [hs]
      simp [readLoop, hs, ih (i + 1), List.filter_cons, hb]
    · have hb : (s == UA_STATUSCODE_GOOD) = false := by simpa using hs
      simp [readLoop, hs, h, ih (i + 1), List.filter_cons, hb]

theorem enumFrom_filter_good_nil :
    ∀ (l : List Nat) (i : Nat),
      ((List.enumFrom i l).filter (fun p => p.2 == UA_STATUSCODE_GOOD) = []
        ↔ l.all (fun s => !(s == UA_STATUSCODE_GOOD))) := by
  intro l
  induction l with
  | nil => intro i; simp
  | cons s rest ih =>
    intro i
    rw [List.enumFrom_cons, List.filter_cons]
    by_cases hs : (s == UA_STATUSCODE_GOOD) = true
    · simp [hs]
    · have hsf : (s == UA_STATUSCODE_GOOD) = false := by simpa using hs
      simp [hsf, ih (i + 1)]

/-- C4: a single-node read batch whose only result is bad fails with one
error and enqueues no `GENERAL_RESPONSE`; in a batch of more than one node,
every bad result emits one non-fatal error naming its position while
processing continues, and when such a batch yields zero good results the
message fails without a `GENERAL_RESPONSE`; otherwise the good results are
enqueued in one `GENERAL_RESPONSE`. -/
theorem read_group_bad_results (statuses : List Nat) :
    (∀ s, s ≠ UA_STATUSCODE_GOOD →
        readGroupEmits [s] = [ReadEmit.errorResponse ReadErrDesc.badResultSingle])
  ∧ (1 < statuses.length →
        readGroupEmits statuses =
          ((statuses.enum.filter (fun p => !(p.2 == UA_STATUSCODE_GOOD))).map
              (fun p => ReadEmit.errorResponse (ReadErrDesc.badResultAt p.1)))
            ++ (if statuses.all (fun s => !(s == UA_STATUSCODE_GOOD)) then
                  [ReadEmit.errorResponse ReadErrDesc.noValidResponses]
                else
                  [ReadEmit.generalResponse
                    ((statuses.enum.filter (fun p => p.2 == UA_STATUSCODE_GOOD)).map
                      Prod.fst)])) := by
  constructor
  · intro s hs
    simp [readGroupEmits, readLoop, hs]
  · intro hlen
    have hne : statuses.length ≠ 1 := ne_of_gt hlen
    have hspec := readLoop_spec statuses.length hne statuses 0
    by_cases hall : statuses.all (fun s => !(s == UA_STATUSCODE_GOOD)) = true
    · have hnil :
          (List.enumFrom 0 statuses).filter (fun p => p.2 == UA_STATUSCODE_GOOD)
            = [] :=
        (enumFrom_filter_good_nil statuses 0).mpr hall
      simp [readGroupEmits, hspec, hnil, List.enum, hall, hlen]
    · have hnnil :
          (List.enumFrom 0 statuses).filter (fun p => p.2 == UA_STATUSCODE_GOOD)
            ≠ [] := by
        intro hx
        exact hall ((enumFrom_filter_good_nil statuses 0).mp hx)
      have hpos :
          0 < ((List.enumFrom 0 statuses).filter
                  (fun p => p.2 == UA_STATUSCODE_GOOD)).length :=
        List.length_pos.mpr hnnil
      have hc : ¬(1 < statuses.length ∧
          (((List.enumFrom 0 statuses).filter
              (fun p => p.2 == UA_STATUSCODE_GOOD)).map Prod.fst).length < 1) := by
        simp only [List.length_map]
        exact fun hand =>
          Nat.lt_irrefl 0 (Nat.lt_of_lt_of_le hpos (Nat.le_of_lt_succ hand.2))
      simp [readGroupEmits, hspec, List.enum, hall, hc]
      intro _
      obtain ⟨p, hp⟩ := List.exists_mem_of_ne_nil _ hnnil
      have hmem := List.mem_of_mem_filter hp
      have hpred := List.of_mem_filter hp
      have hp2 : p.2 = UA_STATUSCODE_GOOD := by simpa using hpred
      refine ⟨p.1, ?_⟩
      rw [← hp2]
      simpa using hmem

theorem read_group_bad_results_witness :
    readGroupEmits [5] = [ReadEmit.errorResponse ReadErrDesc.badResultSingle]
  ∧ readGroupEmits [5, 0]
      = (([(5 : Nat), 0].enum.filter (fun p => !(p.2 == UA_STATUSCODE_GOOD))).map
            (fun p => ReadEmit.errorResponse (ReadErrDesc.badResultAt p.1)))
          ++ (if [(5 : Nat), 0].all (fun s => !(s == UA_STATUSCODE_GOOD)) then
                [ReadEmit.errorResponse ReadErrDesc.noValidResponses]
              else
                [ReadEmit.generalResponse
                  (([(5 : Nat), 0].enum.filter
                      (fun p => p.2 == UA_STATUSCODE_GOOD)).map Prod.fst)]) :=
  ⟨(read_group_bad_results []).1 5 (by decide),
   (read_group_bad_results [5, 0]).2 (by decide)⟩

/-! ### Subscription engine (subscription.c) -/

/-- One record of the per-session subscription list (`subscriptionInfo`):
subscription id and monitored-item id.  The cloned request message and the
handler context do not influence the claims. -/
structure SubInfo where
  subId : Nat
  monId : Nat

/-- Per-session subscription state (`clientSubscription`): subscription
count and the subscription list keyed by valueAlias, insertion-ordered. -/
structure ClientSub where
  subscriptionCount : Int
  subscriptionList : List (String × SubInfo)

/-- Synchronous OPC UA service calls issued by `createSub`/`deleteSub`. -/
inductive SubSvcCall
  | createSubscription
  | createMonitoredItem (idx : Nat)
  | deleteMonitoredItem (subId monId : Nat)
  | deleteSubscription (subId : Nat)

/-- `getSubInfo` (subscription.c:163): first record whose key equals the
valueAlias. -/
def getSubInfo : List (String × SubInfo) → String → Option SubInfo
  | [], _ => none
  | (k, v) :: rest, a => if k = a then some v else getSubInfo rest a

/-- `hasSubscriptionId` (subscription.c:115). -/
def hasSubscriptionId (list : List (String × SubInfo)) (subId : Nat) : Bool :=
  list.any (fun r => r.2.subId == subId)

/-- `validateMonitoringId` (subscription.c:90): false when some record
already carries the (subId, monId) pair. -/
def validateMonitoringId (list : List (String × SubInfo)) (subId monId : Nat) : Bool :=
  !(list.any (fun r => r.2.subId == subId && r.2.monId == monId))

/-- `removeSubFromMap` (subscription.c:186): unlinks and returns the first
record whose key equals the valueAlias; the rest of the list is untouched. -/
def removeSubFromMap : List (String × SubInfo) → String →
    Option (String × SubInfo) × List (String × SubInfo)
  | [], _ => (none, [])
  | (k, v) :: rest, a =>
    if k = a then (some (k, v), rest)
    else
      let r := removeSubFromMap rest a
      (r.1, (k, v) :: r.2)

/-- Result of `deleteSub`: returned status, service calls issued in order,
the session's subscription state afterwards, and whether the pump thread was
signalled to stop and joined. -/
structure DeleteSubResult where
  status : Nat
  calls : List SubSvcCall
  clientSub : Option ClientSub
  pumpStopped : Bool

/-- `deleteSub` (subscription.c:788-853).  `itemDelRet` is the status of the
monitored-item delete at line 803; the source immediately overwrites it with
`subDelRet1`, the status of the unconditional
`UA_Client_Subscriptions_deleteSingle` at line 804.  `subDelRet2` is the
status of the conditional subscription delete at line 835. -/
def deleteSub (cs : Option ClientSub) (vAlias : String)
    (_itemDelRet subDelRet1 subDelRet2 : Nat) : DeleteSubResult :=
  match cs with
  | none => ⟨UA_STATUSCODE_BADNOSUBSCRIPTION, [], cs, false⟩
  | some clientSub =>
    match getSubInfo clientSub.subscriptionList vAlias with
    | none => ⟨UA_STATUSCODE_BADNOSUBSCRIPTION, [], cs, false⟩
    | some subInfo =>
      let calls1 : List SubSvcCall :=
        [SubSvcCall.deleteMonitoredItem subInfo.subId subInfo.monId,
         SubSvcCall.deleteSubscription subInfo.subId]
      if subDelRet1 ≠ UA_STATUSCODE_GOOD then
        ⟨subDelRet1, calls1, cs, false⟩
      else
        let list' := (removeSubFromMap clientSub.subscriptionList vAlias).2
        if !hasSubscriptionId list' subInfo.subId then
          let calls2 := calls1 ++ [SubSvcCall.deleteSubscription subInfo.subId]
          if subDelRet2 ≠ UA_STATUSCODE_GOOD then
            ⟨subDelRet2, calls2, some { clientSub with subscriptionList := list' },
             false⟩
          else
            let cnt' := clientSub.subscriptionCount - 1
            ⟨UA_STATUSCODE_GOOD, calls2, some ⟨cnt', list'⟩, cnt' == 0⟩
        else
          ⟨UA_STATUSCODE_GOOD, calls1,
           some { clientSub with subscriptionList := list' }, false⟩

/-- C2: the code contradicts the claim (and its own conditional delete at
line 832): right after deleting the monitored item, `deleteSub`
unconditionally issues `UA_Client_Subscriptions_deleteSingle` for the
subscription (line 804, overwriting the monitored-item delete status), so
the subscription is deleted on the server even when another record of the
session still references the same subscription id. -/
theorem deleteSub_deletes_referenced_subscription :
    deleteSub (some ⟨2, [("a", ⟨5, 1⟩), ("b", ⟨5, 2⟩)]⟩) ("a")
        UA_STATUSCODE_GOOD UA_STATUSCODE_GOOD UA_STATUSCODE_GOOD
      = ⟨UA_STATUSCODE_GOOD,
         [SubSvcCall.deleteMonitoredItem 5 1, SubSvcCall.deleteSubscription 5],
         some ⟨2, [("b", ⟨5, 2⟩)]⟩, false⟩
  ∧ SubSvcCall.deleteSubscription 5
      ∈ (deleteSub (some ⟨2, [("a", ⟨5, 1⟩), ("b", ⟨5, 2⟩)]⟩) ("a")
          UA_STATUSCODE_GOOD UA_STATUSCODE_GOOD UA_STATUSCODE_GOOD).calls
  ∧ hasSubscriptionId [("b", ⟨5, 2⟩)] 5 = true := by
  refine ⟨rfl, ?_, rfl⟩
  have h : (deleteSub (some ⟨2, [("a", ⟨5, 1⟩), ("b", ⟨5, 2⟩)]⟩) ("a")
      UA_STATUSCODE_GOOD UA_STATUSCODE_GOOD UA_STATUSCODE_GOOD).calls
      = [SubSvcCall.deleteMonitoredItem 5 1, SubSvcCall.deleteSubscription 5] := rfl
  rw [h]
  exact List.mem_cons_of_mem _ (List.mem_cons_self _ _)

/-- The duplicate-alias scan of `createSub` (subscription.c:544-559):
`i` ranges over `[0, n)`, `j` over `[0, n-1)`; any pair `i ≠ j` with equal
aliases aborts the batch. -/
def hasDuplicateAlias (aliases : List String) : Bool :=
  (List.range aliases.length).any fun i =>
    (List.range (aliases.length - 1)).any fun j =>
      i != j && aliases.getD i ("") == aliases.getD j ("")

/-- Result of `createSub`: status, service calls issued in order, the
session's subscription state afterwards, and whether the pump thread was
started. -/
structure CreateSubResult where
  status : Nat
  calls : List SubSvcCall
  clientSub : Option ClientSub
  pumpStarted : Bool

/-- The record-insertion loop of `createSub` (subscription.c:678-762),
walking the indexed aliases: an all-zero monitored-item id or a bad item
status aborts with that code (the partially updated state is kept when the
session already had a `clientSubscription`, since the source mutates it in
place); otherwise records are appended to the (materialized) subscription
list, except that an already-listed (subId, monId) pair is skipped. -/
def createSubInsertLoop (subId : Nat) (monIds itemResults : Nat → Nat) :
    List (Nat × String) → Option ClientSub →
    Except (Nat × Option ClientSub) (Option ClientSub)
  | [], cs => Except.ok cs
  | (i, a) :: rest, cs =>
    if monIds i ≠ 0 then
      if (match cs with
          | some c => !validateMonitoringId c.subscriptionList subId (monIds i)
          | none => false) then
        createSubInsertLoop subId monIds itemResults rest cs
      else if itemResults i ≠ UA_STATUSCODE_GOOD then
        Except.error (itemResults i, cs)
      else
        let c : ClientSub := match cs with
          | some c0 => c0
          | none => ⟨0, []⟩
        createSubInsertLoop subId monIds itemResults rest
          (some { c with subscriptionList :=
                    c.subscriptionList ++ [(a, ⟨subId, monIds i⟩)] })
    else Except.error (UA_STATUSCODE_BADMONITOREDITEMIDINVALID, cs)

/-- `createSub` (subscription.c:527-786).  `svcResult` and `newSubId` are
the service result and subscription id of `UA_Client_Subscriptions_create`;
`itemResults i` and `monItemIds i` are the status code and monitored-item id
that `UA_Client_MonitoredItems_createDataChange` returns for request `i`. -/
def createSub (cs : Option ClientSub) (aliases : List String)
    (svcResult newSubId : Nat) (itemResults monItemIds : Nat → Nat) :
    CreateSubResult :=
  if hasDuplicateAlias aliases then
    ⟨UA_STATUSCODE_BADREQUESTCANCELLEDBYCLIENT, [], cs, false⟩
  else if (match cs with
           | some c => aliases.any (fun a => (getSubInfo c.subscriptionList a).isSome)
           | none => false) then
    ⟨UA_STATUSCODE_BADREQUESTCANCELLEDBYCLIENT, [], cs, false⟩
  else
    let createCall := [SubSvcCall.createSubscription]
    if svcResult ≠ UA_STATUSCODE_GOOD then ⟨svcResult, createCall, cs, false⟩
    else if (match cs with
             | some c => hasSubscriptionId c.subscriptionList newSubId
             | none => false) then
      ⟨UA_STATUSCODE_BADSUBSCRIPTIONIDINVALID, createCall, cs, false⟩
    else
      let itemCalls := (List.range aliases.length).map SubSvcCall.createMonitoredItem
      let monIds : Nat → Nat := fun i =>
        if itemResults i = UA_STATUSCODE_GOOD then monItemIds i else 0
      match createSubInsertLoop newSubId monIds itemResults aliases.enum cs with
      | Except.error (code, cs') =>
        ⟨code, createCall ++ itemCalls, if cs.isSome then cs' else cs, false⟩
      | Except.ok cs' =>
        match cs' with
        | none => ⟨UA_STATUSCODE_GOOD, createCall ++ itemCalls, none, false⟩
        | some c =>
          ⟨UA_STATUSCODE_GOOD, createCall ++ itemCalls,
           some { c with subscriptionCount := c.subscriptionCount + 1 },
           c.subscriptionCount == 0⟩

theorem hasDuplicateAlias_of_pair (aliases : List String) (i j : Nat)
    (hij : i < j) (hj : j < aliases.length)
    (heq : aliases.getD i ("") = aliases.getD j ("")) :
    hasDuplicateAlias aliases = true := by
  unfold hasDuplicateAlias
  rw [List.any_eq_true]
  refine ⟨j, List.mem_range.mpr hj, ?_⟩
  rw [List.any_eq_true]
  refine ⟨i, List.mem_range.mpr
    (Nat.lt_of_lt_of_le hij (Nat.le_pred_of_lt hj)), ?_⟩
  have hne : j ≠ i := Nat.ne_of_gt hij
  have heq' : aliases.getD j ("") = aliases.getD i ("") := heq.symm
  simp only [List.getD, List.get?_eq_getElem?] at heq'
  simp [hne, heq']

/-- C5: a create-subscription batch with two equal valueAlias strings, or
with a valueAlias already present in the session's subscription list,
returns `BADREQUESTCANCELLEDBYCLIENT` before issuing any service call, so no
subscription and no monitored item is created and the subscription list is
unchanged. -/
theorem createSub_duplicate_alias (cs : Option ClientSub)
    (aliases : List String) (svcResult newSubId : Nat)
    (itemResults monItemIds : Nat → Nat)
    (h : (∃ i j, i < j ∧ j < aliases.length ∧
            aliases.getD i ("") = aliases.getD j ("")) ∨
         (∃ c, cs = some c ∧
            ∃ a ∈ aliases, (getSubInfo c.subscriptionList a).isSome)) :
    createSub cs aliases svcResult newSubId itemResults monItemIds
      = ⟨UA_STATUSCODE_BADREQUESTCANCELLEDBYCLIENT, [], cs, false⟩ := by
  by_cases hdup : hasDuplicateAlias aliases = true
  · simp [createSub, hdup]
  · rcases h with ⟨i, j, hij, hj, heq⟩ | ⟨c, hcs, a, ha, hsome⟩
    · exact absurd (hasDuplicateAlias_of_pair aliases i j hij hj heq) hdup
    · subst hcs
      have hany :
          aliases.any (fun a => (getSubInfo c.subscriptionList a).isSome) = true := by
        rw [List.any_eq_true]
        exact ⟨a, ha, hsome⟩
      simp [createSub, hdup, hany]

theorem createSub_duplicate_alias_witness :
    createSub (some ⟨0, []⟩) ["a", "b", "a"] UA_STATUSCODE_GOOD 1
        (fun _ => 0) (fun _ => 0)
      = ⟨UA_STATUSCODE_BADREQUESTCANCELLEDBYCLIENT, [], some ⟨0, []⟩, false⟩ :=
  createSub_duplicate_alias (some ⟨0, []⟩) ["a", "b", "a"] UA_STATUSCODE_GOOD 1
    (fun _ => 0) (fun _ => 0)
    (Or.inl ⟨0, 2, by decide, by decide, by decide⟩)

/-! ### Session registry (edge_opcua_client.c)

`sessionClientMap` maps `host:port` keys to `UA_Client` pointers and is NULL
until the first successful connect; `clientCount` is a process-wide
`size_t`.  `getAddressPort` (line 52) derives the `host:port` key from an
endpoint URI through `UA_parseEndpointUrl`; it is modelled as an abstract
total function (the claims presuppose a parseable URI).  `UA_Client`
pointers are modelled as `Nat` with `0` for NULL. -/

/-- The registry state: `sessionClientMap` (NULL or an insertion-ordered
association list) and `clientCount`. -/
structure Registry where
  map : Option (List (String × Nat))
  count : Nat

/-- Externally observable side effects of `connect_client` /
`disconnect_client`. -/
inductive ClientEffect
  | clientCreated
  | clientDestroyed
  | statusClientStarted
  | statusStopClient
  | queuesDrained

/-- The lookup loop of `getSessionClient` (edge_opcua_client.c:89-97):
the value of the first entry whose key matches, else NULL. -/
def lookupFirst : List (String × Nat) → String → Option Nat
  | [], _ => none
  | (k, v) :: rest, key => if k = key then some v else lookupFirst rest key

/-- `getSessionClient` (edge_opcua_client.c:80-100): NULL when the map is
NULL or no key matches. -/
def getSessionClient (hostPort : String → String) (reg : Registry)
    (endpoint : String) : Nat :=
  match reg.map with
  | none => 0
  | some m => (lookupFirst m (hostPort endpoint)).getD 0

/-- `connect_client` (edge_opcua_client.c:185-242).  `connectOk` is the
outcome of `UA_Client_connect`; `newClient` is the (non-NULL) pointer that
`UA_Client_new` returns.  The port-check regex (line 196) is informational
only and performs no rewrite. -/
def connect_client (hostPort : String → String) (connectOk : Bool)
    (newClient : Nat) (endpoint : String) (reg : Registry) :
    Bool × List ClientEffect × Registry :=
  if getSessionClient hostPort reg endpoint ≠ 0 then (false, [], reg)
  else if !connectOk then
    (false, [ClientEffect.clientCreated, ClientEffect.clientDestroyed], reg)
  else
    let m := match reg.map with
      | none => []
      | some m0 => m0
    (true, [ClientEffect.clientCreated, ClientEffect.statusClientStarted],
     ⟨some (m ++ [(hostPort endpoint, newClient)]),
      (reg.count + 1) % 18446744073709551616⟩)

/-- The unlink loop of `removeClientFromSessionMap`
(edge_opcua_client.c:109-127): removes and returns the first entry whose key
matches; the list is unchanged when no key matches. -/
def removeFirst : List (String × Nat) → String →
    Option (String × Nat) × List (String × Nat)
  | [], _ => (none, [])
  | (k, v) :: rest, key =>
    if k = key then (some (k, v), rest)
    else
      let r := removeFirst rest key
      (r.1, (k, v) :: r.2)

/-- `disconnect_client` (edge_opcua_client.c:244-274): removes the entry,
destroys its client, decrements the count, fires `STATUS_STOP_CLIENT`, and
on the last client frees the map and drains the delivery queues; a miss is a
no-op. -/
def disconnect_client (hostPort : String → String) (epUri : String)
    (reg : Registry) : List ClientEffect × Registry :=
  match reg.map with
  | none => ([], reg)
  | some m =>
    let r := removeFirst m (hostPort epUri)
    match r.1 with
    | none => ([], ⟨some r.2, reg.count⟩)
    | some (_, v) =>
      let eff := (if v ≠ 0 then [ClientEffect.clientDestroyed] else [])
        ++ [ClientEffect.statusStopClient]
      let count' := (reg.count + 18446744073709551615) % 18446744073709551616
      if count' = 0 then (eff ++ [ClientEffect.queuesDrained], ⟨none, 0⟩)
      else (eff, ⟨some r.2, count'⟩)

/-- Well-formedness maintained by the registry: keys are distinct and every
stored client pointer is non-NULL. -/
def RegWF (reg : Registry) : Prop :=
  ∀ m, reg.map = some m → (m.map Prod.fst).Nodup ∧ ∀ p ∈ m, p.2 ≠ 0

theorem lookupFirst_eq_none_iff :
    ∀ (m : List (String × Nat)) (key : String),
      lookupFirst m key = none ↔ key ∉ m.map Prod.fst := by
  intro m key
  induction m with
  | nil => simp [lookupFirst]
  | cons p rest ih =>
    obtain ⟨k, v⟩ := p
    by_cases hk : k = key
    · subst hk
      simp [lookupFirst]
    · simp [lookupFirst, hk, ih, Ne.symm hk]

theorem lookupFirst_mem :
    ∀ (m : List (String × Nat)) (key : String) (v : Nat),
      lookupFirst m key = some v → (key, v) ∈ m := by
  intro m key
  induction m with
  | nil => intro v h; exact absurd h (by simp [lookupFirst])
  | cons p rest ih =>
    obtain ⟨k, w⟩ := p
    intro v h
    by_cases hk : k = key
    · subst hk
      simp only [lookupFirst, if_pos] at h
      obtain rfl : w = v := by simpa using h
      exact List.mem_cons_self _ _
    · simp only [lookupFirst, hk, if_false] at h
      exact List.mem_cons_of_mem _ (ih v h)

/-- C7: the registry keeps at most one live entry per `host:port`: a
connect whose endpoint resolves to a key already present returns false
without creating a client, firing a callback, or touching the map or the
count; and `connect_client` preserves key distinctness and value
non-NULLness. -/
theorem connect_client_duplicate (hostPort : String → String)
    (connectOk : Bool) (newClient : Nat) (endpoint : String) (reg : Registry) :
    (∀ m c, reg.map = some m → lookupFirst m (hostPort endpoint) = some c →
        c ≠ 0 →
        connect_client hostPort connectOk newClient endpoint reg
          = (false, [], reg))
  ∧ (newClient ≠ 0 → RegWF reg →
        RegWF (connect_client hostPort connectOk newClient endpoint reg).2.2) := by
  constructor
  · intro m c hm hlk hc
    simp [connect_client, getSessionClient, hm, hlk, hc]
  · intro hnew hwf
    by_cases hdup : getSessionClient hostPort reg endpoint ≠ 0
    · simp only [connect_client]
      rw [if_pos hdup]
      exact hwf
    · by_cases hok : connectOk
      · have hc' : (!connectOk) = false := by simp [hok]
        simp only [connect_client, hdup, Bool.false_eq_true, if_false, hc',
          reduceIte]
        cases hm : reg.map with
        | none =>
          intro m' hm'
          simp only [hm] at hm'
          obtain rfl : [(hostPort endpoint, newClient)] = m' := by
            simpa using hm'
          constructor
          · simp
          · intro p hp
            simp at hp
            subst hp
            exact hnew
        | some m0 =>
          obtain ⟨hnd, hnz⟩ := hwf m0 hm
          have hnotin : hostPort endpoint ∉ m0.map Prod.fst := by
            rcases hx : lookupFirst m0 (hostPort endpoint) with - | v
            · exact (lookupFirst_eq_none_iff m0 (hostPort endpoint)).mp hx
            · exfalso
              have hv0 : v = 0 := by
                simp only [getSessionClient, hm, hx, Option.getD_some,
                  ne_eq, not_not] at hdup
                exact hdup
              exact hnz _ (lookupFirst_mem m0 _ v hx) (by simpa using hv0)
          intro m' hm'
          simp only [hm] at hm'
          obtain rfl : m0 ++ [(hostPort endpoint, newClient)] = m' := by
            simpa using hm'
          constructor
          · rw [List.map_append, List.nodup_append]
            refine ⟨hnd, by simp, ?_⟩
            intro a ha hb
            simp at hb
            subst hb
            exact hnotin ha
          · intro p hp
            rcases List.mem_append.mp hp with h | h
            · exact hnz p h
            · simp at h
              subst h
              exact hnew
      · have hc' : (!connectOk) = true := by simp [hok]
        simp only [connect_client, hdup, Bool.false_eq_true, if_false, hc',
          if_pos]
        exact hwf

theorem connect_client_duplicate_witness :
    connect_client (fun _ => "h:4840") true 9 ("opc.tcp://h:4840")
        ⟨some [("h:4840", 7)], 1⟩
      = (false, [], ⟨some [("h:4840", 7)], 1⟩) :=
  (connect_client_duplicate (fun _ => "h:4840") true 9 ("opc.tcp://h:4840")
      ⟨some [("h:4840", 7)], 1⟩).1
    [("h:4840", 7)] 7 rfl (by decide) (by decide)

theorem removeFirst_of_countP_zero (key : String) :
    ∀ (m : List (String × Nat)),
      m.countP (fun p => p.1 == key) = 0 → removeFirst m key = (none, m) := by
  intro m
  induction m with
  | nil => intro h; rfl
  | cons p rest ih =>
    obtain ⟨k, v⟩ := p
    intro h
    have hk : k ≠ key := by
      intro hkk
      rw [List.countP_cons] at h
      simp [hkk] at h
    have hrest : rest.countP (fun p => p.1 == key) = 0 := by
      rw [List.countP_cons] at h
      exact Nat.eq_zero_of_add_eq_zero_right h
    simp [removeFirst, hk, ih hrest]

theorem removeFirst_unique_removes (key : String) :
    ∀ (m : List (String × Nat)) (p : String × Nat),
      m.countP (fun q => q.1 == key) ≤ 1 →
      (removeFirst m key).1 = some p →
      (removeFirst m key).2.countP (fun q => q.1 == key) = 0 := by
  intro m
  induction m with
  | nil => intro p h hsome; exact absurd hsome (by simp [removeFirst])
  | cons q rest ih =>
    obtain ⟨k, v⟩ := q
    intro p h hsome
    have hcons := List.countP_cons (fun q : String × Nat => q.1 == key) (k, v) rest
    by_cases hk : k = key
    · subst hk
      have hif : (if ((k, v).1 == k) = true then 1 else 0) = 1 := by simp
      rw [hif] at hcons
      rw [hcons] at h
      simp only [removeFirst, if_pos]
      exact Nat.le_zero.mp (Nat.le_of_succ_le_succ h)
    · have hif : (if ((k, v).1 == key) = true then 1 else 0) = 0 := by simp [hk]
      rw [hif, Nat.add_zero] at hcons
      rw [hcons] at h
      simp only [removeFirst, hk, if_false] at hsome ⊢
      have hrest := ih p h hsome
      rw [List.countP_cons, hrest, hif]

theorem removeFirst_none_keeps (key : String) :
    ∀ (m : List (String × Nat)),
      (removeFirst m key).1 = none → (removeFirst m key).2 = m := by
  intro m
  induction m with
  | nil => intro h; rfl
  | cons q rest ih =>
    obtain ⟨k, v⟩ := q
    intro h
    by_cases hk : k = key
    · simp [removeFirst, hk] at h
    · simp only [removeFirst, hk, if_false] at h ⊢
      rw [ih h]

/-- C8: `disconnect_client` is idempotent: once a disconnect has removed the
entry for an endpoint (the registry holding at most one entry for its key),
a second disconnect with the same endpoint changes nothing, destroys no
client, decrements no count, and fires no status callback. -/
theorem disconnect_client_idempotent (hostPort : String → String)
    (epUri : String) (reg : Registry)
    (huniq : ∀ m, reg.map = some m →
        m.countP (fun p => p.1 == hostPort epUri) ≤ 1) :
    disconnect_client hostPort epUri (disconnect_client hostPort epUri reg).2
      = ([], (disconnect_client hostPort epUri reg).2) := by
  cases hm : reg.map with
  | none =>
    have h1 : disconnect_client hostPort epUri reg = ([], reg) := by
      simp only [disconnect_client, hm]
    rw [h1]
    simp only [disconnect_client, hm]
  | some m =>
    have hcnt := huniq m hm
    rcases hr : (removeFirst m (hostPort epUri)).1 with - | p
    · have hkeep := removeFirst_none_keeps (hostPort epUri) m hr
      have h1 : disconnect_client hostPort epUri reg
          = ([], ⟨some m, reg.count⟩) := by
        simp only [disconnect_client, hm, hr, hkeep]
      have h2 : disconnect_client hostPort epUri ⟨some m, reg.count⟩
          = ([], ⟨some m, reg.count⟩) := by
        simp only [disconnect_client, hr, hkeep]
      rw [h1]
      exact h2
    · have hzero := removeFirst_unique_removes (hostPort epUri) m p hcnt hr
      obtain ⟨pk, pv⟩ := p
      by_cases hc0 :
          (reg.count + 18446744073709551615) % 18446744073709551616 = 0
      · have hS : (disconnect_client hostPort epUri reg).2
            = (⟨none, 0⟩ : Registry) := by
          simp only [disconnect_client, hm, hr, hc0, if_pos]
        rw [hS]
        simp only [disconnect_client]
      · have hS : (disconnect_client hostPort epUri reg).2
            = (⟨some (removeFirst m (hostPort epUri)).2,
                (reg.count + 18446744073709551615) % 18446744073709551616⟩ :
                Registry) := by
          simp only [disconnect_client, hm, hr, hc0, if_false, reduceIte]
        have hmiss := removeFirst_of_countP_zero (hostPort epUri)
          (removeFirst m (hostPort epUri)).2 hzero
        rw [hS]
        simp only [disconnect_client, hmiss]

theorem disconnect_client_idempotent_witness :
    disconnect_client (fun _ => "h:4840") ("opc.tcp://h:4840")
        (disconnect_client (fun _ => "h:4840") ("opc.tcp://h:4840")
          ⟨some [("h:4840", 7)], 1⟩).2
      = ([], (disconnect_client (fun _ => "h:4840") ("opc.tcp://h:4840")
          ⟨some [("h:4840", 7)], 1⟩).2) :=
  disconnect_client_idempotent (fun _ => "h:4840") ("opc.tcp://h:4840")
    ⟨some [("h:4840", 7)], 1⟩
    (by intro m hm; injection hm with h; subst h; decide)

/-! ### IPv4 validation in discovery (edge_discovery_common.c:371-406)

`isIPv4AddressValid` scans the host bytes once, tracking the value and digit
count of the current segment and the number of dots.  Byte comparisons
`data[i] < '0'` / `data[i] > '9'` are modelled on `Char.toNat` (48 and 57
are the byte values of `0` and `9`).  `value` is a C `unsigned int`, so its
update wraps modulo `2^32`; the wrap can never change the verdict, because a
segment of more than 3 digits is rejected at the next dot or at the end, but
the model keeps it. -/

/-- The scan loop of `isIPv4AddressValid` (lines 379-399) together with the
final check (line 400): arguments are the remaining bytes, `value`,
`numOfDigitsInSegment` and `numOfDots`. -/
def ipv4Loop : CStr → Nat → Nat → Nat → Bool
  | [], value, digits, dots =>
    if dots ≠ 3 ∨ digits < 1 ∨ digits > 3 ∨ value > 255 then false else true
  | c :: cs, value, digits, dots =>
    if c = '.' then
      if digits < 1 ∨ digits > 3 ∨ value > 255 then false
      else ipv4Loop cs 0 0 (dots + 1)
    else if c.toNat < 48 ∨ 57 < c.toNat then false
    else ipv4Loop cs ((value * 10 + (c.toNat - 48)) % 4294967296) (digits + 1) dots

/-- `isIPv4AddressValid` (edge_discovery_common.c:371-406). -/
def isIPv4AddressValid (s : CStr) : Bool :=
  if s.length < 7 ∨ 15 < s.length then false
  else ipv4Loop s 0 0 0

/-- Split a byte string at every `.` (three dots yield four segments). -/
def splitOnDot : CStr → List CStr
  | [] => [[]]
  | c :: cs =>
    if c = '.' then [] :: splitOnDot cs
    else
      match splitOnDot cs with
      | [] => [[c]]
      | seg :: rest => (c :: seg) :: rest

/-- The numeric value of a decimal-digit string. -/
def digitsVal (seg : CStr) : Nat :=
  seg.foldl (fun a c => a * 10 + (c.toNat - 48)) 0

/-- One segment of the claimed grammar: 1 to 3 decimal digits with a value
in [0..255]. -/
def SegmentOk (seg : CStr) : Prop :=
  1 ≤ seg.length ∧ seg.length ≤ 3
    ∧ (∀ c ∈ seg, 48 ≤ c.toNat ∧ c.toNat ≤ 57) ∧ digitsVal seg ≤ 255

/-- The grammar claimed for the validator: exactly four segments separated
by exactly three dots, each segment of 1 to 3 decimal digits with a value
in [0..255], no other characters, total length in [7..15]. -/
def IPv4Grammar (s : CStr) : Prop :=
  (splitOnDot s).length = 4 ∧ (∀ seg ∈ splitOnDot s, SegmentOk seg)
    ∧ 7 ≤ s.length ∧ s.length ≤ 15

theorem splitOnDot_ne_nil : ∀ (cs : CStr), splitOnDot cs ≠ [] := by
  intro cs
  cases cs with
  | nil => simp [splitOnDot]
  | cons c cs' =>
    by_cases hc : c = '.'
    · simp [splitOnDot, hc]
    · simp only [splitOnDot, hc, if_false]
      rcases hs : splitOnDot cs' with - | ⟨seg, rest⟩
      · simp
      · simp

theorem splitOnDot_cons_dot (cs : CStr) :
    splitOnDot ('.' :: cs) = [] :: splitOnDot cs := by
  simp [splitOnDot]

theorem splitOnDot_cons_not_dot (c : Char) (cs : CStr) (hc : c ≠ '.') :
    splitOnDot (c :: cs)
      = (c :: (splitOnDot cs).headI) :: (splitOnDot cs).tail := by
  simp only [splitOnDot, hc, if_false]
  rcases hs : splitOnDot cs with - | ⟨seg, rest⟩
  · exact absurd hs (splitOnDot_ne_nil cs)
  · simp

theorem digitsVal_append_singleton (seg : CStr) (c : Char) :
    digitsVal (seg ++ [c]) = digitsVal seg * 10 + (c.toNat - 48) := by
  simp [digitsVal, List.foldl_append]

theorem digit_sub_le (d : Nat) (h : d ≤ 57) : d - 48 ≤ 9 :=
  Nat.sub_le_sub_right h 48

theorem mul_ten_bound (a d : Nat) (h : d ≤ 9) : a * 10 + d + 1 ≤ (a + 1) * 10 := by
  rw [Nat.succ_mul, Nat.add_assoc]
  exact Nat.add_le_add_left (Nat.succ_le_succ h) _

theorem digitsVal_lt (seg : CStr) (h : ∀ c ∈ seg, c.toNat ≤ 57) :
    digitsVal seg < 10 ^ seg.length := by
  have haux : ∀ (l : CStr) (a : Nat), (∀ c ∈ l, c.toNat ≤ 57) →
      l.foldl (fun a c => a * 10 + (c.toNat - 48)) a < (a + 1) * 10 ^ l.length := by
    intro l
    induction l with
    | nil => intro a _; simp
    | cons c cs ih =>
      intro a hall
      rw [List.foldl_cons]
      have hd : c.toNat - 48 ≤ 9 := digit_sub_le c.toNat (hall c (by simp))
      have h1 := ih (a * 10 + (c.toNat - 48)) (fun x hx => hall x (by simp [hx]))
      have h2 : (a * 10 + (c.toNat - 48) + 1) * 10 ^ cs.length
          ≤ (a + 1) * 10 ^ (c :: cs).length := by
        rw [List.length_cons, pow_succ]
        calc (a * 10 + (c.toNat - 48) + 1) * 10 ^ cs.length
            ≤ ((a + 1) * 10) * 10 ^ cs.length :=
              Nat.mul_le_mul_right _ (mul_ten_bound a (c.toNat - 48) hd)
          _ = (a + 1) * (10 ^ cs.length * 10) := by
              rw [Nat.mul_assoc, Nat.mul_comm 10 (10 ^ cs.length)]
      exact lt_of_lt_of_le h1 h2
  have := haux seg 0 h
  simpa [digitsVal] using this

theorem ipv4Loop_digits_overflow :
    ∀ (cs : CStr) (value digits dots : Nat), 4 ≤ digits →
      ipv4Loop cs value digits dots = false := by
  intro cs
  induction cs with
  | nil =>
    intro value digits dots h
    simp only [ipv4Loop]
    rw [if_pos]
    exact Or.inr (Or.inr (Or.inl h))
  | cons c cs' ih =>
    intro value digits dots h
    by_cases hc : c = '.'
    · subst hc
      simp only [ipv4Loop, reduceIte]
      rw [if_pos]
      exact Or.inr (Or.inl h)
    · simp only [ipv4Loop]
      rw [if_neg hc]
      by_cases hd : c.toNat < 48 ∨ 57 < c.toNat
      · rw [if_pos hd]
      · rw [if_neg hd]
        exact ih _ _ _ (Nat.le_succ_of_le h)

theorem dots_shift (d r : Nat) : d + 1 + (r + 1) = d + (r + 1 + 1) := by
  rw [Nat.add_assoc, Nat.add_comm 1 (r + 1)]

theorem dots_succ_eq_four (d : Nat) (h : d + 1 = 4) : d = 3 :=
  Nat.succ_injective h

theorem dots_three_succ (d : Nat) (h : d = 3) : d + 1 = 4 := by
  rw [h]

theorem seg_no_room (x : Nat) (h : 3 + (x + 1) ≤ 3) : False :=
  Nat.not_lt.mpr (Nat.le_add_right 3 x) h

theorem value_bound (v d : Nat) (hv : v < 1000) (hd : d ≤ 57) :
    v * 10 + (d - 48) < 4294967296 :=
  Nat.lt_of_le_of_lt
    (Nat.add_le_add (Nat.mul_le_mul_right 10 (Nat.lt_succ_iff.mp hv))
      (Nat.le_trans (Nat.sub_le d 48) hd))
    (by decide)

theorem len_succ_le_three (p : Nat) (h : p ≤ 3) (hne : p ≠ 3) : p + (0 + 1) ≤ 3 :=
  Nat.lt_of_le_of_ne h hne

theorem ipv4Loop_spec :
    ∀ (cs pending : CStr) (dots : Nat),
      (∀ c ∈ pending, 48 ≤ c.toNat ∧ c.toNat ≤ 57) → pending.length ≤ 3 →
      (ipv4Loop cs (digitsVal pending) pending.length dots = true ↔
        (dots + (splitOnDot cs).length = 4
          ∧ SegmentOk (pending ++ (splitOnDot cs).headI)
          ∧ ∀ seg ∈ (splitOnDot cs).tail, SegmentOk seg)) := by
  intro cs
  induction cs with
  | nil =>
    intro pending dots hdig hlen
    have hsp : splitOnDot ([] : CStr) = [[]] := rfl
    rw [hsp]
    simp only [List.headI, List.tail_cons, List.length_cons, List.length_nil,
      List.append_nil, List.not_mem_nil, false_implies, implies_true, and_true,
      Nat.zero_add]
    simp only [ipv4Loop]
    by_cases hcond : dots ≠ 3 ∨ pending.length < 1 ∨ pending.length > 3
        ∨ digitsVal pending > 255
    · rw [if_pos hcond]
      simp only [Bool.false_eq_true, false_iff]
      rintro ⟨h4, h1, h2, -, h3⟩
      rcases hcond with h | h | h | h
      · exact h (dots_succ_eq_four dots h4)
      · exact Nat.not_le_of_lt h h1
      · exact Nat.not_le_of_lt h h2
      · exact Nat.not_le_of_lt h h3
    · rw [if_neg hcond]
      push_neg at hcond
      obtain ⟨hd3, hl1, hl3, hv⟩ := hcond
      simp only [true_iff, SegmentOk]
      exact ⟨dots_three_succ dots hd3, hl1, hl3, hdig, hv⟩
  | cons c cs' ih =>
    intro pending dots hdig hlen
    rcases hsp : splitOnDot cs' with - | ⟨s0, rest⟩
    · exact absurd hsp (splitOnDot_ne_nil cs')
    by_cases hc : c = '.'
    · subst hc
      rw [splitOnDot_cons_dot, hsp]
      simp only [List.headI, List.tail_cons, List.length_cons, List.append_nil]
      simp only [ipv4Loop, reduceIte]
      by_cases habort : pending.length < 1 ∨ pending.length > 3
          ∨ digitsVal pending > 255
      · rw [if_pos habort]
        simp only [Bool.false_eq_true, false_iff]
        rintro ⟨h4, ⟨h1, h2, -, h3⟩, -⟩
        rcases habort with h | h | h
        · exact Nat.not_le_of_lt h h1
        · exact Nat.not_le_of_lt h h2
        · exact Nat.not_le_of_lt h h3
      · rw [if_neg habort]
        push_neg at habort
        obtain ⟨hl1, hl3, hv⟩ := habort
        have ihx := ih [] (dots + 1) (by simp) (by simp)
        simp only [digitsVal, List.foldl_nil, List.length_nil, List.nil_append,
          hsp, List.headI, List.tail_cons, List.length_cons] at ihx
        rw [ihx]
        constructor
        · rintro ⟨h4, hh, ht⟩
          refine ⟨dots_shift dots rest.length ▸ h4, ⟨hl1, hl3, hdig, hv⟩, ?_⟩
          intro seg hseg
          rcases List.mem_cons.mp hseg with h | h
          · subst h; exact hh
          · exact ht seg h
        · rintro ⟨h4, -, hall⟩
          exact ⟨(dots_shift dots rest.length).symm ▸ h4, hall s0 (by simp),
            fun seg hs => hall seg (by simp [hs])⟩
    · rw [splitOnDot_cons_not_dot c cs' hc, hsp]
      simp only [List.headI, List.tail_cons, List.length_cons]
      by_cases hdc : c.toNat < 48 ∨ 57 < c.toNat
      · have hl : ipv4Loop (c :: cs') (digitsVal pending) pending.length dots
            = false := by
          simp only [ipv4Loop]
          rw [if_neg hc, if_pos hdc]
        rw [hl]
        simp only [Bool.false_eq_true, false_iff]
        rintro ⟨-, ⟨-, -, hchar, -⟩, -⟩
        have hcc := hchar c (by simp)
        rcases hdc with h | h
        · exact Nat.not_le_of_lt h hcc.1
        · exact Nat.not_le_of_lt h hcc.2
      · push_neg at hdc
        obtain ⟨h48, h57⟩ := hdc
        have hstep : ipv4Loop (c :: cs') (digitsVal pending) pending.length dots
            = ipv4Loop cs'
                ((digitsVal pending * 10 + (c.toNat - 48)) % 4294967296)
                (pending.length + 1) dots := by
          simp only [ipv4Loop]
          rw [if_neg hc, if_neg (by push_neg; exact ⟨h48, h57⟩)]
        rw [hstep]
        by_cases hlen3 : pending.length = 3
        · rw [ipv4Loop_digits_overflow cs' _ _ _ (by rw [hlen3])]
          simp only [Bool.false_eq_true, false_iff]
          rintro ⟨-, ⟨-, hlen', -, -⟩, -⟩
          rw [List.length_append, List.length_cons, hlen3] at hlen'
          exact seg_no_room _ hlen'
        · have hmod : (digitsVal pending * 10 + (c.toNat - 48)) % 4294967296
              = digitsVal (pending ++ [c]) := by
            rw [digitsVal_append_singleton]
            apply Nat.mod_eq_of_lt
            have hv := digitsVal_lt pending (fun x hx => (hdig x hx).2)
            have hb : digitsVal pending < 10 ^ 3 :=
              lt_of_lt_of_le hv (Nat.pow_le_pow_right (by decide) hlen)
            exact value_bound (digitsVal pending) c.toNat
              ((by decide : (10 : Nat) ^ 3 = 1000) ▸ hb) h57
          have hlp : pending.length + 1 = (pending ++ [c]).length := by simp
          rw [hmod, hlp]
          have ihx := ih (pending ++ [c]) dots
            (by
              intro x hx
              rcases List.mem_append.mp hx with h | h
              · exact hdig x h
              · simp at h
                subst h
                exact ⟨h48, h57⟩)
            (by
              rw [List.length_append, List.length_cons, List.length_nil]
              exact len_succ_le_three pending.length hlen hlen3)
          rw [hsp] at ihx
          simp only [List.headI, List.tail_cons, List.length_cons,
            List.append_assoc, List.singleton_append] at ihx
          rw [ihx]

/-- C6: the IPv4 validator returns true exactly on strings of four
1-to-3-digit decimal segments with values in [0..255], separated by exactly
three dots, with no other characters and total length between 7 and 15. -/
theorem isIPv4AddressValid_iff_grammar (s : CStr) :
    isIPv4AddressValid s = true ↔ IPv4Grammar s := by
  unfold isIPv4AddressValid IPv4Grammar
  by_cases hlen : s.length < 7 ∨ 15 < s.length
  · rw [if_pos hlen]
    simp only [Bool.false_eq_true, false_iff]
    rintro ⟨-, -, h7, h15⟩
    rcases hlen with h | h
    · exact Nat.not_le_of_lt h h7
    · exact Nat.not_le_of_lt h h15
  · rw [if_neg hlen]
    push_neg at hlen
    obtain ⟨h7, h15⟩ := hlen
    have hmain := ipv4Loop_spec s [] 0 (by simp) (by simp)
    simp only [digitsVal, List.foldl_nil, List.length_nil, List.nil_append]
      at hmain
    rw [hmain]
    rcases hsp : splitOnDot s with - | ⟨s0, rest⟩
    · exact absurd hsp (splitOnDot_ne_nil s)
    simp only [List.headI, List.tail_cons, List.length_cons, Nat.zero_add]
    constructor
    · rintro ⟨h4, hh, ht⟩
      refine ⟨h4, ?_, h7, h15⟩
      intro seg hseg
      rcases List.mem_cons.mp hseg with h | h
      · subst h; exact hh
      · exact ht seg h
    · rintro ⟨h4, hall, -, -⟩
      exact ⟨h4, hall s0 (by simp), fun seg hs => hall seg (by simp [hs])⟩

end OpcUa
